import Mathlib

/-!
Verification of the fire-enrich client core against its specification.

The development shallowly embeds the two source units the specification's
testable properties refer to:

* `src/components/virtual-table.tsx` — the row-presentation engine
  (`sortedData`, `handleSelectAll`, `getRowStatus`, the confidence-badge
  render, the auto-scroll effect);
* the performance-monitoring hook (`usePerformanceMonitoring`) — metrics
  state, alert set, `updateProcessingMetrics`, `getPerformanceStatus`.

JavaScript dynamic values that flow through the sort comparator are
embedded as the inductive `JSVal`: strings, finite numbers (as rationals),
booleans, arrays of strings, and `undefined`.  `Number()` coercion of a
string is modelled for optional-sign decimal numerals (the formats that
occur in CSV/enrichment data); all other strings coerce to `none`,
standing for NaN.  `Array.prototype.sort` is modelled as a stable
insertion sort, which is the behaviour ECMAScript 2019+ pins down whenever
the comparator is consistent.
-/

namespace FireEnrich

/-- A JavaScript value as it can appear in an enrichment cell or in a CSV
cell: string, finite number, boolean, array of strings, or `undefined`. -/
inductive JSVal : Type where
  | str : String → JSVal
  | num : ℚ → JSVal
  | bool : Bool → JSVal
  | arr : List String → JSVal
  | undef : JSVal
deriving DecidableEq

/-- JavaScript truthiness of a `JSVal`: `''`, `0`, `false` and `undefined`
are falsy; every other value (including any array) is truthy. -/
def truthy : JSVal → Bool
  | .str s => s ≠ ""
  | .num q => q ≠ 0
  | .bool b => b
  | .arr _ => true
  | .undef => false

/-- Models the `x || ''` pattern of the sort comparator: a missing or
falsy value is replaced by the empty string, a truthy value is kept. -/
def orEmpty : Option JSVal → JSVal
  | some v => if truthy v then v else .str ""
  | none => .str ""

/-- ToPrimitive for the values above: an array converts to its
comma-joined string (as `Array.prototype.toString` does); every other
value is already primitive. -/
def toPrim : JSVal → JSVal
  | .arr l => .str (String.intercalate "," l)
  | v => v

/-- Lexicographic UTF-16-style comparison of two character lists, the
order JavaScript `<` uses when both operands are strings (a strict prefix
compares below the longer string). -/
def charsLt : List Char → List Char → Bool
  | [], [] => false
  | [], _ :: _ => true
  | _ :: _, [] => false
  | a :: as, b :: bs =>
    if a < b then true else if b < a then false else charsLt as bs

theorem charsLt_irrefl : ∀ l : List Char, charsLt l l = false
  | [] => rfl
  | a :: as => by simp [charsLt, charsLt_irrefl as]

theorem charsLt_asymm : ∀ {s t : List Char},
    charsLt s t = true → charsLt t s = false
  | [], [], h => by simp [charsLt] at h
  | [], _ :: _, _ => rfl
  | _ :: _, [], h => by simp [charsLt] at h
  | a :: as, b :: bs, h => by
    simp only [charsLt] at h ⊢
    rcases lt_trichotomy a b with hab | hab | hab
    · simp [hab, not_lt_of_lt hab]
    · subst hab
      simp only [lt_irrefl, if_false] at h ⊢
      exact charsLt_asymm h
    · simp [hab, not_lt_of_lt hab] at h

theorem charsLt_trans : ∀ {s t u : List Char},
    charsLt s t = true → charsLt t u = true → charsLt s u = true
  | [], _, _ :: _, _, _ => rfl
  | [], t, [], _, h2 => by cases t <;> simp [charsLt] at h2
  | _ :: _, [], _, h1, _ => by simp [charsLt] at h1
  | _ :: _, _ :: _, [], _, h2 => by simp [charsLt] at h2
  | a :: as, b :: bs, c :: cs, h1, h2 => by
    simp only [charsLt] at h1 h2 ⊢
    rcases lt_trichotomy a b with hab | hab | hab
    · rcases lt_trichotomy b c with hbc | hbc | hbc
      · simp [lt_trans hab hbc]
      · subst hbc; simp [hab]
      · simp [hbc, not_lt_of_lt hbc] at h2
    · subst hab
      simp only [lt_irrefl, if_false] at h1
      rcases lt_trichotomy a c with hac | hac | hac
      · simp [hac]
      · subst hac
        simp only [lt_irrefl, if_false] at h2 ⊢
        exact charsLt_trans h1 h2
      · simp [hac, not_lt_of_lt hac] at h2
    · simp [hab, not_lt_of_lt hab] at h1

theorem charsLt_connex : ∀ {s t : List Char},
    charsLt s t = false → charsLt t s = true ∨ s = t
  | [], [], _ => Or.inr rfl
  | [], _ :: _, h => by cases h
  | _ :: _, [], _ => Or.inl rfl
  | a :: as, b :: bs, h => by
    simp only [charsLt] at h ⊢
    rcases lt_trichotomy a b with hab | hab | hab
    · simp [hab] at h
    · subst hab
      simp only [lt_irrefl, if_false] at h ⊢
      rcases charsLt_connex h with h' | h'
      · exact Or.inl h'
      · exact Or.inr (by rw [h'])
    · simp [hab, not_lt_of_lt hab]

/-- Digits of a numeral, as a natural number; `none` when the character
list is empty or contains a non-digit. -/
def parseDigits (l : List Char) : Option ℕ :=
  if l ≠ [] ∧ l.all Char.isDigit then
    some (l.foldl (fun n c => 10 * n + (c.toNat - 48)) 0)
  else none

/-- Number() coercion of a string, modelled for optional-sign decimal
numerals: the empty (or all-whitespace) string is 0, `"12"`, `"-3.5"`,
`".5"`, `"5."` parse as expected; every other string yields `none`,
standing for NaN.  (Exponent, hex and Infinity forms are outside the
modelled fragment.) -/
def jsStrToNum (s : String) : Option ℚ :=
  let t := (s.data.dropWhile Char.isWhitespace).reverse.dropWhile
    Char.isWhitespace |>.reverse
  if t = [] then some 0 else
  let (sgn, u) : ℚ × List Char :=
    match t with
    | '-' :: r => (-1, r)
    | '+' :: r => (1, r)
    | r => (1, r)
  let ip := u.takeWhile (· ≠ '.')
  match u.dropWhile (· ≠ '.') with
  | [] => (parseDigits ip).map (fun n => sgn * n)
  | _ :: fp =>
    if fp.dropWhile (· ≠ '.') ≠ [] then none
    else if fp = [] then (parseDigits ip).map (fun n => sgn * n)
    else if ip = [] then
      (parseDigits fp).map (fun n => sgn * n / (10 ^ fp.length))
    else
      match parseDigits ip, parseDigits fp with
      | some a, some b => some (sgn * (a + (b : ℚ) / (10 ^ fp.length)))
      | _, _ => none

/-- ToNumber on a primitive value (`none` is NaN). -/
def toNumPrim : JSVal → Option ℚ
  | .str s => jsStrToNum s
  | .num q => some q
  | .bool b => some (if b then 1 else 0)
  | .arr l => jsStrToNum (String.intercalate "," l)
  | .undef => none

/-- Numeric comparison of two ToNumber results; `none` stands for NaN,
and any comparison involving NaN is `false`. -/
def numLtOpt : Option ℚ → Option ℚ → Bool
  | some x, some y => decide (x < y)
  | _, _ => false

/-- The JavaScript `<` comparison on two primitives: lexicographic when
both sides are strings, numeric after ToNumber otherwise, `false`
whenever a NaN is involved. -/
def primLt (a b : JSVal) : Bool :=
  match a, b with
  | .str s, .str t => charsLt s.data t.data
  | a, b => numLtOpt (toNumPrim a) (toNumPrim b)

/-- The JavaScript `<` comparison of two embedded values. -/
def jsLt (a b : JSVal) : Bool :=
  primLt (toPrim a) (toPrim b)

theorem numLtOpt_asymm {x y : Option ℚ} (h : numLtOpt x y = true) :
    numLtOpt y x = false := by
  cases x <;> cases y <;> simp_all [numLtOpt, decide_eq_true_eq, le_of_lt]

theorem numLtOpt_irrefl (x : Option ℚ) : numLtOpt x x = false := by
  cases x <;> simp [numLtOpt]

theorem primLt_asymm {a b : JSVal} (h : primLt a b = true) : primLt b a = false := by
  cases a <;> cases b <;>
    simp only [primLt] at h ⊢ <;>
    first
      | exact charsLt_asymm h
      | exact numLtOpt_asymm h

theorem jsLt_asymm {a b : JSVal} (h : jsLt a b = true) : jsLt b a = false :=
  primLt_asymm h

theorem primLt_irrefl (a : JSVal) : primLt a a = false := by
  cases a <;> simp only [primLt] <;>
    first
      | exact charsLt_irrefl _
      | exact numLtOpt_irrefl _

theorem jsLt_irrefl (a : JSVal) : jsLt a a = false :=
  primLt_irrefl _

/-! ### A stable sort, modelling `Array.prototype.sort`

`[...rows].sort(cmp)` is embedded as a stable insertion sort driven by the
strict relation `lt a b := cmp(a,b) < 0`.  An element is inserted before
the first already-placed element it is strictly below, hence after all
elements it ties with — exactly the unique stable order that ECMAScript
2019+ requires whenever the comparator is consistent. -/

/-- Insert `x` into `l`, passing every element strictly below `x` and
stopping in front of the first element `x` is not strictly above. -/
def stableInsert (lt : α → α → Bool) (x : α) : List α → List α
  | [] => [x]
  | y :: ys => if lt y x then y :: stableInsert lt x ys else x :: y :: ys

/-- Stable insertion sort by the strict relation `lt`. -/
def stableSort (lt : α → α → Bool) : List α → List α
  | [] => []
  | x :: xs => stableInsert lt x (stableSort lt xs)

theorem stableInsert_perm (lt : α → α → Bool) (x : α) :
    ∀ l : List α, (stableInsert lt x l).Perm (x :: l)
  | [] => List.Perm.refl _
  | y :: ys => by
    simp only [stableInsert]
    split
    · exact ((stableInsert_perm lt x ys).cons y).trans (List.Perm.swap x y ys)
    · exact List.Perm.refl _

theorem stableSort_perm (lt : α → α → Bool) :
    ∀ l : List α, (stableSort lt l).Perm l
  | [] => List.Perm.refl _
  | x :: xs =>
    (stableInsert_perm lt x (stableSort lt xs)).trans
      ((stableSort_perm lt xs).cons x)

theorem mem_stableSort (lt : α → α → Bool) (l : List α) (a : α) :
    a ∈ stableSort lt l ↔ a ∈ l :=
  (stableSort_perm lt l).mem_iff

/-- After inserting, adjacent elements never contradict the comparator,
provided `lt` is asymmetric. -/
theorem chain'_stableInsert {lt : α → α → Bool}
    (hasym : ∀ a b, lt a b = true → lt b a = false) (x : α) :
    ∀ l : List α, List.Chain' (fun a b => lt b a = false) l →
      List.Chain' (fun a b => lt b a = false) (stableInsert lt x l)
  | [], _ => List.chain'_singleton x
  | y :: ys, h => by
    simp only [stableInsert]
    rcases List.chain'_cons'.1 h with ⟨hhd, htl⟩
    split
    · refine List.chain'_cons'.2 ⟨?_, chain'_stableInsert hasym x ys htl⟩
      intro z hz
      cases ys with
      | nil =>
        simp only [stableInsert, List.head?_cons, Option.mem_def,
          Option.some.injEq] at hz
        exact hz ▸ hasym _ _ (by assumption)
      | cons y' ys' =>
        simp only [stableInsert] at hz
        revert hz
        split
        · intro hz
          simp only [List.head?_cons, Option.mem_def, Option.some.injEq] at hz
          exact hz ▸ hhd _ rfl
        · intro hz
          simp only [List.head?_cons, Option.mem_def, Option.some.injEq] at hz
          exact hz ▸ hasym _ _ (by assumption)
    · exact List.chain'_cons'.2 ⟨fun z hz => by
        simp only [List.head?_cons, Option.mem_def, Option.some.injEq] at hz
        exact hz ▸ (by simp_all), h⟩

theorem chain'_stableSort {lt : α → α → Bool}
    (hasym : ∀ a b, lt a b = true → lt b a = false) :
    ∀ l : List α, List.Chain' (fun a b => lt b a = false) (stableSort lt l)
  | [] => List.chain'_nil
  | x :: xs => chain'_stableInsert hasym x _ (chain'_stableSort hasym xs)

/-- A list whose adjacent pairs already agree with the comparator is left
unchanged by the sort. -/
theorem stableSort_eq_self {lt : α → α → Bool} :
    ∀ l : List α, List.Chain' (fun a b => lt b a = false) l →
      stableSort lt l = l
  | [], _ => rfl
  | x :: xs, h => by
    rcases List.chain'_cons'.1 h with ⟨hhd, htl⟩
    simp only [stableSort, stableSort_eq_self xs htl]
    cases xs with
    | nil => rfl
    | cons y ys =>
      simp only [stableInsert, hhd y rfl, Bool.false_eq_true, if_false]

/-- Sorting is idempotent for any asymmetric comparator. -/
theorem stableSort_idem {lt : α → α → Bool}
    (hasym : ∀ a b, lt a b = true → lt b a = false) (l : List α) :
    stableSort lt (stableSort lt l) = stableSort lt l :=
  stableSort_eq_self _ (chain'_stableSort hasym l)

/-- Stability: elements of one tie class (any class on which the
comparator never fires) appear in the output exactly in input order. -/
theorem filter_stableInsert_pos {lt : α → α → Bool} {p : α → Bool}
    (hp : ∀ a b, p a = true → p b = true → lt a b = false) (x : α)
    (hx : p x = true) :
    ∀ l : List α, (stableInsert lt x l).filter p = x :: l.filter p
  | [] => by simp [stableInsert, hx]
  | y :: ys => by
    simp only [stableInsert]
    split
    · have hpy : p y = false := by
        cases hy : p y with
        | false => rfl
        | true => simp_all [hp x y hx hy]
      simp [List.filter_cons, hpy, filter_stableInsert_pos hp x hx ys]
    · simp [List.filter_cons, hx]

theorem filter_stableInsert_neg {lt : α → α → Bool} {p : α → Bool} (x : α)
    (hx : p x = false) :
    ∀ l : List α, (stableInsert lt x l).filter p = l.filter p
  | [] => by simp [stableInsert, hx]
  | y :: ys => by
    simp only [stableInsert]
    split
    · simp [List.filter_cons, filter_stableInsert_neg x hx ys]
    · simp [List.filter_cons, hx]

theorem filter_stableSort {lt : α → α → Bool} {p : α → Bool}
    (hp : ∀ a b, p a = true → p b = true → lt a b = false) :
    ∀ l : List α, (stableSort lt l).filter p = l.filter p
  | [] => rfl
  | x :: xs => by
    cases hx : p x with
    | true =>
      simp only [stableSort, filter_stableInsert_pos hp x hx,
        filter_stableSort hp xs, List.filter_cons, hx]
      simp
    | false =>
      simp only [stableSort, filter_stableInsert_neg x hx,
        filter_stableSort hp xs, List.filter_cons, hx]
      simp

/-- Two comparators that agree on the elements of a list sort it the same
way. -/
theorem stableInsert_congr {lt lt' : α → α → Bool} (x : α) :
    ∀ l : List α, (h : ∀ a ∈ l, lt a x = lt' a x) →
      stableInsert lt x l = stableInsert lt' x l
  | [], _ => rfl
  | y :: ys, h => by
    simp only [stableInsert, h y (List.mem_cons_self y ys)]
    split
    · rw [stableInsert_congr x ys (fun a ha => h a (List.mem_cons_of_mem y ha))]
    · rfl

theorem stableSort_congr {lt lt' : α → α → Bool} :
    ∀ l : List α, (h : ∀ a ∈ l, ∀ b ∈ l, lt a b = lt' a b) →
      stableSort lt l = stableSort lt' l
  | [], _ => rfl
  | x :: xs, h => by
    have hxs := stableSort_congr xs
      (fun a ha b hb => h a (List.mem_cons_of_mem x ha) b (List.mem_cons_of_mem x hb))
    simp only [stableSort, hxs]
    exact stableInsert_congr x _ (fun a ha =>
      h a (List.mem_cons_of_mem x ((mem_stableSort lt' xs a).1 ha))
        x (List.mem_cons_self x xs))

/-! ### Data model of the row-presentation engine

`CSVRow`, `EnrichmentField`, `EnrichmentValue`, `RowResult` and the result
store are the shared contracts of `src/components/virtual-table.tsx`.
Their shapes are modelled from the spec: the `lib/types` module that
declares them is not part of the provided sources (spec §3 gives
Row, EnrichmentValue `{value, confidence}` and RowResult
`{status, enrichments}`). -/

/-- A CSV row: an ordered mapping from column name to raw cell text. -/
abbrev CSVRow := List (String × String)

/-- JavaScript property access `row[col]`. -/
def rowLookup (r : CSVRow) (col : String) : Option String :=
  List.lookup col r

/-- `Object.values(row)[0]`: the first cell in column order. -/
def rowFirstValue (r : CSVRow) : Option String :=
  (r.map Prod.snd).head?

/-- Modelled from the spec: result of computing one field for one row,
`{value: scalar|list|boolean|absent, confidence: fraction|absent}`. -/
structure EnrichmentValue where
  value : Option JSVal
  confidence : Option ℚ
deriving DecidableEq

/-- Modelled from the spec: per-row aggregate
`{status, enrichments: field name → EnrichmentValue}`; the status is a
string that may itself be absent on a raw stream payload. -/
structure RowResult where
  status : Option String
  enrichments : List (String × EnrichmentValue)
deriving DecidableEq

/-- The result store, `Map<number, RowEnrichmentResult>`. -/
abbrev ResultStore := List (ℕ × RowResult)

/-- `results.get(rowIndex)`. -/
def resultsGet (results : ResultStore) (rowIndex : ℕ) : Option RowResult :=
  List.lookup rowIndex results

/-- Sort direction of the table's `sortConfig`. -/
inductive SortDir : Type where
  | asc : SortDir
  | desc : SortDir
deriving DecidableEq

/-- The table's active sort configuration `{key, direction}`. -/
structure SortConfig where
  key : String
  direction : SortDir
deriving DecidableEq

/-- A row paired with its original `rowIndex` (the position of the row
object in the `rows` array, which is what `rows.indexOf(a)` recovers for
the distinct row objects of an uploaded dataset). -/
abbrev RowEntry := ℕ × CSVRow

/-- The pre-default enrichment value the comparator reads:
`results.get(aIndex)?.enrichments[sortConfig.key]?.value`. -/
def enrichedValue (results : ResultStore) (key : String) (e : RowEntry) :
    Option JSVal :=
  (resultsGet results e.1).bind fun r =>
    (List.lookup key r.enrichments).bind fun ev => ev.value

/-- The comparator's sort key for one row, following `sortedData`:
the email column (or first cell) for the identity column — possibly
`undefined` — and `value || ''` for a field column. -/
def sortKey (results : ResultStore) (emailColumn : Option String)
    (cfg : SortConfig) (e : RowEntry) : JSVal :=
  if cfg.key = "email" then
    match emailColumn with
    | some col =>
      match rowLookup e.2 col with
      | some s => .str s
      | none => .undef
    | none =>
      match rowFirstValue e.2 with
      | some s => .str s
      | none => .undef
  else
    orEmpty (enrichedValue results cfg.key e)

/-- `cmp(a,b) < 0` for the comparator of `sortedData`: ascending when
`aValue < bValue`, descending when `bValue < aValue`. -/
def rowLtB (results : ResultStore) (emailColumn : Option String)
    (cfg : SortConfig) (a b : RowEntry) : Bool :=
  match cfg.direction with
  | .asc => jsLt (sortKey results emailColumn cfg a)
      (sortKey results emailColumn cfg b)
  | .desc => jsLt (sortKey results emailColumn cfg b)
      (sortKey results emailColumn cfg a)

/-- `sortedData`: the rows as given when no sort is active, otherwise the
stable sort of `[...rows]` by the comparator.  Each element carries its
original `rowIndex`. -/
def sortedData (rows : List CSVRow) (results : ResultStore)
    (sortConfig : Option SortConfig) (emailColumn : Option String) :
    List RowEntry :=
  match sortConfig with
  | none => rows.enum
  | some cfg => stableSort (rowLtB results emailColumn cfg) rows.enum

/-- `handleSelectAll`: clear the selection when its size already equals
the row count, otherwise select every row index. -/
def handleSelectAll (selectedRows : Finset ℕ) (numRows : ℕ) : Finset ℕ :=
  if selectedRows.card = numRows then ∅ else Finset.range numRows

/-- `getRowStatus`: the stored status (defaulted to `completed` when
falsy) if a result exists, otherwise `processing` for the row matching
the currently-processing marker and `pending` for the rest. -/
def getRowStatus (results : ResultStore) (currentProcessingRow : ℤ)
    (rowIndex : ℕ) : String :=
  match resultsGet results rowIndex with
  | none =>
    if currentProcessingRow = (rowIndex : ℤ) then "processing" else "pending"
  | some result =>
    match result.status with
    | some s => if s = "" then "completed" else s
    | none => "completed"

/-- `Math.round`: round half away from zero is `⌊q + 1/2⌋` for the
nonnegative and, as JavaScript rounds halves toward +∞, for all inputs. -/
def jsRound (q : ℚ) : ℤ := ⌊q + 1 / 2⌋

/-- The confidence badge of a field cell: rendered only when
`confidence` is truthy, showing `Math.round(confidence * 100)`. -/
def confidenceBadge (confidence : Option ℚ) : Option ℤ :=
  match confidence with
  | some c => if c ≠ 0 then some (jsRound (c * 100)) else none
  | none => none

/-- The auto-scroll effect: when the currently-processing marker is
nonnegative, the list is scrolled to item `currentProcessingRow`
(`scrollToItem` indexes into the displayed, i.e. sorted, list). -/
def autoScrollTarget (currentProcessingRow : ℤ) : Option ℕ :=
  if 0 ≤ currentProcessingRow then some currentProcessingRow.toNat else none

/-! ### The performance-monitoring hook

Embedding of `usePerformanceMonitoring`: the metrics snapshot, the alert
list and each mutator, with wall-clock instants passed in explicitly
(`Date.now()` readings become `now` arguments, the
`performance.memory.usedJSHeapSize` gauge becomes an op payload). -/

/-- The `PerformanceMetrics` snapshot of the hook. -/
structure PerformanceMetrics where
  memoryUsage : ℚ
  renderTime : ℚ
  processingSpeed : ℚ
  errorRate : ℚ
  totalRows : ℕ
  processedRows : ℕ
  startTime : ℚ
  lastUpdateTime : ℚ
  frameRate : ℚ
  networkRequests : ℕ
  failedRequests : ℕ
deriving DecidableEq

/-- The `PerformanceThresholds` configuration. -/
structure PerformanceThresholds where
  maxMemoryUsage : ℚ
  maxRenderTime : ℚ
  minProcessingSpeed : ℚ
  maxErrorRate : ℚ
  minFrameRate : ℚ
deriving DecidableEq

/-- `DEFAULT_THRESHOLDS` of the source. -/
def DEFAULT_THRESHOLDS : PerformanceThresholds :=
  { maxMemoryUsage := 500
    maxRenderTime := 100
    minProcessingSpeed := 1000
    maxErrorRate := 5
    minFrameRate := 30 }

/-- The zeroed metrics at run start `t0` (both time fields are
`Date.now()` at initialisation). -/
def initialMetrics (t0 : ℚ) : PerformanceMetrics :=
  { memoryUsage := 0, renderTime := 0, processingSpeed := 0, errorRate := 0
    totalRows := 0, processedRows := 0, startTime := t0, lastUpdateTime := t0
    frameRate := 0, networkRequests := 0, failedRequests := 0 }

/-- The hook's whole mutable state: metrics, the alert set, and the two
frame-rate refs. -/
structure HookState where
  metrics : PerformanceMetrics
  alerts : List String
  frameCount : ℕ
  lastFrameTime : ℚ
deriving DecidableEq

/-- Hook state at initialisation time `t0`. -/
def initialState (t0 : ℚ) : HookState :=
  { metrics := initialMetrics t0, alerts := [], frameCount := 0
    lastFrameTime := t0 }

/-- Template-literal rendering of a number; exact for the integral values
every alert message of this development interpolates. -/
def jsNumStr (q : ℚ) : String :=
  if q.den = 1 then toString q.num else toString q.num ++ "/" ++ toString q.den

/-- The de-duplicating append every alert site uses:
`prev.includes(alert) ? prev : [...prev, alert]`. -/
def addAlert (alerts : List String) (msg : String) : List String :=
  if msg ∈ alerts then alerts else alerts ++ [msg]

/-- `measureMemoryUsage`, given a heap-gauge reading in bytes. -/
def measureMemoryUsage (t : PerformanceThresholds) (s : HookState)
    (usedJSHeapSize : ℚ) (now : ℚ) : HookState :=
  let memoryUsageMB := usedJSHeapSize / 1024 / 1024
  let alerts' :=
    if memoryUsageMB > t.maxMemoryUsage then
      addAlert s.alerts ("High memory usage: " ++ toString (jsRound memoryUsageMB)
        ++ "MB (threshold: " ++ jsNumStr t.maxMemoryUsage ++ "MB)")
    else s.alerts
  { s with
    metrics := { s.metrics with
      memoryUsage := (jsRound memoryUsageMB : ℚ), lastUpdateTime := now }
    alerts := alerts' }

/-- One `measureFrameRate` animation-frame tick at instant `now`. -/
def measureFrameRate (t : PerformanceThresholds) (s : HookState)
    (now : ℚ) : HookState :=
  let frameCount' := s.frameCount + 1
  let timeDiff := now - s.lastFrameTime
  if timeDiff ≥ 1000 then
    let fps := jsRound ((frameCount' : ℚ) * 1000 / timeDiff)
    { metrics := { s.metrics with frameRate := (fps : ℚ), lastUpdateTime := now }
      alerts :=
        if (fps : ℚ) < t.minFrameRate then
          addAlert s.alerts ("Low frame rate: " ++ toString fps
            ++ "fps (threshold: " ++ jsNumStr t.minFrameRate ++ "fps)")
        else s.alerts
      frameCount := 0
      lastFrameTime := now }
  else { s with frameCount := frameCount' }

/-- `measureRenderTime`, with `performance.now()` at the end passed in. -/
def measureRenderTime (t : PerformanceThresholds) (s : HookState)
    (componentName : String) (startTime endTime : ℚ) (now : ℚ) : HookState :=
  let renderTime := endTime - startTime
  { s with
    metrics := { s.metrics with
      renderTime := (jsRound renderTime : ℚ), lastUpdateTime := now }
    alerts :=
      if renderTime > t.maxRenderTime then
        addAlert s.alerts ("Slow render: " ++ componentName ++ " took "
          ++ toString (jsRound renderTime) ++ "ms (threshold: "
          ++ jsNumStr t.maxRenderTime ++ "ms)")
      else s.alerts }

/-- `updateProcessingMetrics(totalRows, processedRows, errors)` at
wall-clock instant `now`. -/
def updateProcessingMetrics (t : PerformanceThresholds) (s : HookState)
    (now : ℚ) (totalRows processedRows errors : ℕ) : HookState :=
  let elapsedMinutes := (now - s.metrics.startTime) / 60000
  let processingSpeed : ℤ :=
    if elapsedMinutes > 0 then jsRound ((processedRows : ℚ) / elapsedMinutes)
    else 0
  let errorRate : ℤ :=
    if totalRows > 0 then jsRound ((errors : ℚ) / (totalRows : ℚ) * 100) else 0
  let alerts1 :=
    if 0 < processingSpeed ∧ (processingSpeed : ℚ) < t.minProcessingSpeed then
      addAlert s.alerts ("Slow processing: " ++ toString processingSpeed
        ++ " rows/min (threshold: " ++ jsNumStr t.minProcessingSpeed
        ++ " rows/min)")
    else s.alerts
  let alerts2 :=
    if (errorRate : ℚ) > t.maxErrorRate then
      addAlert alerts1 ("High error rate: " ++ toString errorRate
        ++ "% (threshold: " ++ jsNumStr t.maxErrorRate ++ "%)")
    else alerts1
  { s with
    metrics := { s.metrics with
      totalRows := totalRows
      processedRows := processedRows
      processingSpeed := (processingSpeed : ℚ)
      errorRate := (errorRate : ℚ)
      lastUpdateTime := now }
    alerts := alerts2 }

/-- `trackNetworkRequest(success)`. -/
def trackNetworkRequest (s : HookState) (success : Bool) (now : ℚ) :
    HookState :=
  { s with
    metrics := { s.metrics with
      networkRequests := s.metrics.networkRequests + 1
      failedRequests :=
        if success then s.metrics.failedRequests
        else s.metrics.failedRequests + 1
      lastUpdateTime := now } }

/-- `resetMetrics`: zero everything, restart the time origin, clear the
alert set. -/
def resetMetrics (s : HookState) (now : ℚ) : HookState :=
  { s with metrics := initialMetrics now, alerts := [] }

/-- `clearAlert(alertToRemove)`. -/
def clearAlert (s : HookState) (alertToRemove : String) : HookState :=
  { s with alerts := s.alerts.filter (fun a => a ≠ alertToRemove) }

/-- `clearAllAlerts`. -/
def clearAllAlerts (s : HookState) : HookState :=
  { s with alerts := [] }

/-- `getPerformanceStatus`: push one issue marker per breached threshold
and classify by how many there are. -/
def getPerformanceStatus (m : PerformanceMetrics)
    (t : PerformanceThresholds) : String :=
  let issues : List String :=
    (if m.memoryUsage > t.maxMemoryUsage then ["memory"] else [])
    ++ (if m.renderTime > t.maxRenderTime then ["render"] else [])
    ++ (if 0 < m.processingSpeed ∧ m.processingSpeed < t.minProcessingSpeed then
          ["processing"] else [])
    ++ (if m.errorRate > t.maxErrorRate then ["errors"] else [])
    ++ (if 0 < m.frameRate ∧ m.frameRate < t.minFrameRate then
          ["framerate"] else [])
  if issues.length = 0 then "good"
  else if issues.length ≤ 2 then "warning"
  else "critical"

/-- One recording operation arriving at the hook, with its host-supplied
payload (wall-clock instants, gauge readings, stream counters). -/
inductive HookOp : Type where
  | memorySample (usedJSHeapSize : ℚ) (now : ℚ) : HookOp
  | frameTick (now : ℚ) : HookOp
  | renderMeasure (componentName : String) (startTime endTime now : ℚ) : HookOp
  | processingUpdate (now : ℚ) (totalRows processedRows errors : ℕ) : HookOp
  | networkOutcome (success : Bool) (now : ℚ) : HookOp
  | reset (now : ℚ) : HookOp
  | alertCleared (msg : String) : HookOp
  | allAlertsCleared : HookOp

/-- Apply one recording operation to the hook state. -/
def hookStep (t : PerformanceThresholds) (s : HookState) :
    HookOp → HookState
  | .memorySample heap now => measureMemoryUsage t s heap now
  | .frameTick now => measureFrameRate t s now
  | .renderMeasure name st en now => measureRenderTime t s name st en now
  | .processingUpdate now tot pro err => updateProcessingMetrics t s now tot pro err
  | .networkOutcome ok now => trackNetworkRequest s ok now
  | .reset now => resetMetrics s now
  | .alertCleared msg => clearAlert s msg
  | .allAlertsCleared => clearAllAlerts s

/-- Run a sequence of recording operations from the initial state. -/
def runHook (t : PerformanceThresholds) (t0 : ℚ) (ops : List HookOp) :
    HookState :=
  ops.foldl (hookStep t) (initialState t0)

/-- Modelled from the spec (§4.2): the number of simultaneously breached
thresholds among memory, render time, processing speed (only once
measured, i.e. positive), error rate, and frame rate (only once
measured). -/
def breachCount (m : PerformanceMetrics) (t : PerformanceThresholds) : ℕ :=
  (if m.memoryUsage > t.maxMemoryUsage then 1 else 0)
  + (if m.renderTime > t.maxRenderTime then 1 else 0)
  + (if 0 < m.processingSpeed ∧ m.processingSpeed < t.minProcessingSpeed then
      1 else 0)
  + (if m.errorRate > t.maxErrorRate then 1 else 0)
  + (if 0 < m.frameRate ∧ m.frameRate < t.minFrameRate then 1 else 0)

/-! ### Helper lemmas about the table comparator -/

theorem rowLtB_asymm (results : ResultStore) (ec : Option String)
    (cfg : SortConfig) (a b : RowEntry)
    (h : rowLtB results ec cfg a b = true) : rowLtB results ec cfg b a = false := by
  cases cfg with
  | mk k dir =>
    cases dir <;> simp only [rowLtB] at h ⊢ <;> exact jsLt_asymm h

theorem rowLtB_eq_false_of_key_eq (results : ResultStore) (ec : Option String)
    (cfg : SortConfig) {a b : RowEntry}
    (h : sortKey results ec cfg a = sortKey results ec cfg b) :
    rowLtB results ec cfg a b = false := by
  cases cfg with
  | mk k dir =>
    cases dir <;> simp only [rowLtB, h] <;> exact jsLt_irrefl _

/-- Rows whose sort keys tie appear in the sorted output exactly in
original `rowIndex` order: filtering the output down to one key class
gives the same list as filtering the input, whose indices ascend. -/
theorem sortedData_ties_pairwise (rows : List CSVRow) (results : ResultStore)
    (ec : Option String) (cfg : SortConfig) (K : JSVal) :
    (((sortedData rows results (some cfg) ec).filter
        (fun e => decide (sortKey results ec cfg e = K))).map Prod.fst).Pairwise
      (· < ·) := by
  have hfil : (sortedData rows results (some cfg) ec).filter
      (fun e => decide (sortKey results ec cfg e = K))
      = rows.enum.filter (fun e => decide (sortKey results ec cfg e = K)) := by
    apply filter_stableSort
    intro a b ha hb
    exact rowLtB_eq_false_of_key_eq results ec cfg
      ((of_decide_eq_true ha).trans (of_decide_eq_true hb).symm)
  rw [hfil]
  have hsub : List.Sublist
      ((rows.enum.filter (fun e => decide (sortKey results ec cfg e = K))).map
        Prod.fst)
      (rows.enum.map Prod.fst) :=
    (List.filter_sublist _).map _
  rw [List.enum_map_fst] at hsub
  exact (List.pairwise_lt_range _).sublist hsub

theorem pairwise_imp_mem {α : Type _} {R S : α → α → Prop} : ∀ {l : List α},
    (∀ a ∈ l, ∀ b ∈ l, R a b → S a b) → l.Pairwise R → l.Pairwise S
  | [], _, _ => List.Pairwise.nil
  | x :: xs, h, hp => by
    rcases List.pairwise_cons.1 hp with ⟨hx, hxs⟩
    refine List.pairwise_cons.2 ⟨fun b hb => h x (by simp) b (by simp [hb])
      (hx b hb), ?_⟩
    exact pairwise_imp_mem
      (fun a ha b hb => h a (by simp [ha]) b (by simp [hb])) hxs

/-! ### Example datasets for the concrete parts of the claims -/

/-- The §8.7 end-to-end dataset: three rows identified by email. -/
def specRows : List CSVRow :=
  [[("email", "a@x.com")], [("email", "b@x.com")], [("email", "c@x.com")]]

/-- The §8.7 result store after the stream emitted row 1 (completed,
score 42 at confidence 0.9) and row 0 (error, no enrichments). -/
def specResults : ResultStore :=
  [(1, { status := some "completed",
         enrichments :=
           [("score", { value := some (.num 42), confidence := some (9/10) })] }),
   (0, { status := some "error", enrichments := [] })]

/-! ### The claims -/

/-- C4 (amended): `handleSelectAll` empties the selection when its size
already equals the row count and otherwise selects every row index;
consequently two successive calls leave an empty selection whenever the
selection was not already full before the first call.  (As stated the
claim's consequence also covered an initially full selection, which the
code toggles back to full — see the counterexample.) -/
theorem c4_selectAll_toggle (n : ℕ) (sel : Finset ℕ) :
    (sel.card = n → handleSelectAll sel n = ∅)
    ∧ (sel.card ≠ n → handleSelectAll sel n = Finset.range n)
    ∧ (sel.card ≠ n →
        handleSelectAll (handleSelectAll sel n) n = ∅) := by
  refine ⟨fun h => ?_, fun h => ?_, fun h => ?_⟩ <;>
    simp [handleSelectAll, h, Finset.card_range]

/-- C4, counterexample to the claim as stated: on the non-empty one-row
dataset with the row already selected, two successive `selectAll` calls
end with the full selection, not the empty one. -/
theorem c4_counterexample :
    handleSelectAll (handleSelectAll {0} 1) 1 = {0}
    ∧ ({0} : Finset ℕ) ≠ (∅ : Finset ℕ) := by
  decide

/-- C4 witness: from the empty selection over two rows, one call selects
both rows and a second call clears the selection. -/
theorem c4_witness :
    handleSelectAll (∅ : Finset ℕ) 2 = Finset.range 2
    ∧ handleSelectAll (handleSelectAll (∅ : Finset ℕ) 2) 2 = ∅ :=
  ⟨(c4_selectAll_toggle 2 ∅).2.1 (by decide),
   (c4_selectAll_toggle 2 ∅).2.2 (by decide)⟩

/-- C5: `updateProcessingMetrics` reports speed 0 whenever no wall-clock
time has elapsed since run start, error rate 0 when `totalRows` is zero,
and otherwise the rounded rows-per-minute and percentage; in particular
`recordProcessingUpdate(100, 0, 0)` at run start gives speed 0, and
`recordProcessingUpdate(100, 50, 5)` after exactly one minute gives
speed 50 and error rate 5. -/
theorem c5_processing_update :
    (∀ (t : PerformanceThresholds) (s : HookState) (now : ℚ)
        (tot pro err : ℕ),
      (now - s.metrics.startTime ≤ 0 →
        (updateProcessingMetrics t s now tot pro err).metrics.processingSpeed
          = 0)
      ∧ (tot = 0 →
        (updateProcessingMetrics t s now tot pro err).metrics.errorRate = 0)
      ∧ (0 < now - s.metrics.startTime →
        (updateProcessingMetrics t s now tot pro err).metrics.processingSpeed
          = (jsRound ((pro : ℚ) / ((now - s.metrics.startTime) / 60000)) : ℚ))
      ∧ (0 < tot →
        (updateProcessingMetrics t s now tot pro err).metrics.errorRate
          = (jsRound (100 * (err : ℚ) / (tot : ℚ)) : ℚ)))
    ∧ (updateProcessingMetrics DEFAULT_THRESHOLDS (initialState 0) 0
        100 0 0).metrics.processingSpeed = 0
    ∧ (updateProcessingMetrics DEFAULT_THRESHOLDS (initialState 0) 60000
        100 50 5).metrics.processingSpeed = 50
    ∧ (updateProcessingMetrics DEFAULT_THRESHOLDS (initialState 0) 60000
        100 50 5).metrics.errorRate = 5 := by
  refine ⟨fun t s now tot pro err => ⟨fun h => ?_, fun h => ?_, fun h => ?_,
    fun h => ?_⟩, ?_, ?_, ?_⟩
  · have hcond : ¬ (0 < (now - s.metrics.startTime) / 60000) :=
      not_lt.2 (div_nonpos_iff.2 (Or.inr ⟨h, by norm_num⟩))
    simp [updateProcessingMetrics, hcond]
  · simp [updateProcessingMetrics, h]
  · have hcond : 0 < (now - s.metrics.startTime) / 60000 :=
      div_pos h (by norm_num)
    simp [updateProcessingMetrics, hcond]
  · have hform : (err : ℚ) / (tot : ℚ) * 100 = 100 * (err : ℚ) / (tot : ℚ) := by
      ring
    simp [updateProcessingMetrics, h, hform]
  · simp only [updateProcessingMetrics, initialState, initialMetrics]
    norm_num
  · have h1 : ((60000 : ℚ) - 0) / 60000 = 1 := by norm_num
    have h2 : jsRound ((50 : ℚ)) = 50 := by norm_num [jsRound, Int.floor_eq_iff]
    simp only [updateProcessingMetrics, initialState, initialMetrics, h1]
    norm_num [h2]
  · have h1 : ((60000 : ℚ) - 0) / 60000 = 1 := by norm_num
    have h3 : jsRound ((5 : ℚ)) = 5 := by norm_num [jsRound, Int.floor_eq_iff]
    simp only [updateProcessingMetrics, initialState, initialMetrics, h1]
    norm_num [h3]

/-- C5 witness: an update seven rows in but zero milliseconds after run
start reports speed 0, and an update with zero total rows reports error
rate 0. -/
theorem c5_witness :
    (updateProcessingMetrics DEFAULT_THRESHOLDS (initialState 5) 5
      0 7 0).metrics.processingSpeed = 0
    ∧ (updateProcessingMetrics DEFAULT_THRESHOLDS (initialState 5) 5
      0 7 0).metrics.errorRate = 0 :=
  ⟨(c5_processing_update.1 DEFAULT_THRESHOLDS (initialState 5) 5 0 7 0).1
      (by norm_num [initialState, initialMetrics]),
   (c5_processing_update.1 DEFAULT_THRESHOLDS (initialState 5) 5 0 7 0).2.1 rfl⟩

/-- C7: `getPerformanceStatus` returns exactly the classification of the
number of simultaneously breached thresholds — `good` for zero,
`warning` for one or two, `critical` for three or more. -/
theorem c7_status_classification (m : PerformanceMetrics)
    (t : PerformanceThresholds) :
    getPerformanceStatus m t =
      (if breachCount m t = 0 then "good"
       else if breachCount m t ≤ 2 then "warning"
       else "critical") := by
  unfold getPerformanceStatus
  have h : ((if m.memoryUsage > t.maxMemoryUsage then ["memory"] else [])
      ++ (if m.renderTime > t.maxRenderTime then ["render"] else [])
      ++ (if 0 < m.processingSpeed ∧ m.processingSpeed < t.minProcessingSpeed then
            ["processing"] else [])
      ++ (if m.errorRate > t.maxErrorRate then ["errors"] else [])
      ++ (if 0 < m.frameRate ∧ m.frameRate < t.minFrameRate then
            ["framerate"] else [])).length = breachCount m t := by
    simp only [breachCount, List.length_append]
    split_ifs <;> rfl
  dsimp only
  rw [h]

/-- C8: the comparator's `value || ''` default maps every falsy
enrichment value — numeric 0, `false`, the empty string — to the same
empty-string key an absent value gets, so such a row is compared exactly
like a row with no enrichment at all. -/
theorem c8_falsy_as_absent :
    (∀ v : JSVal, truthy v = false →
      orEmpty (some v) = .str "" ∧ orEmpty none = .str "")
    ∧ (truthy (.num 0) = false ∧ truthy (.bool false) = false
        ∧ truthy (.str "") = false)
    ∧ (∀ (results : ResultStore) (ec : Option String) (cfg : SortConfig)
        (e1 e2 : RowEntry), cfg.key ≠ "email" → ∀ v : JSVal,
        enrichedValue results cfg.key e1 = some v → truthy v = false →
        enrichedValue results cfg.key e2 = none →
        sortKey results ec cfg e1 = sortKey results ec cfg e2) := by
  refine ⟨fun v hv => by simp [orEmpty, hv], by decide,
    fun results ec cfg e1 e2 hk v h1 hv h2 => ?_⟩
  simp [sortKey, hk, h1, h2, orEmpty, hv]

/-- Result store for the C8 witness: only row 0 is enriched, and its
score is the falsy number 0. -/
def zeroScoreStore : ResultStore :=
  [(0, { status := some "completed",
         enrichments :=
           [("score", { value := some (.num 0), confidence := none })] })]

/-- C8 witness: in a store where row 0 carries score 0 and row 1 has no
result, both rows get the empty-string sort key. -/
theorem c8_witness :
    sortKey zeroScoreStore none ⟨"score", .asc⟩ (0, [("email", "a")])
    = sortKey zeroScoreStore none ⟨"score", .asc⟩ (1, [("email", "b")]) :=
  c8_falsy_as_absent.2.2 zeroScoreStore none ⟨"score", .asc⟩
    (0, [("email", "a")]) (1, [("email", "b")]) (by decide) (.num 0)
    (by decide) (by decide) (by decide)

/-- C9: whenever a result entry exists for a row, its derived status is
taken from the entry alone — and an absent or empty status field is
displayed as `completed`, whatever the currently-processing marker is. -/
theorem c9_result_presence_is_completed (results : ResultStore)
    (marker : ℤ) (i : ℕ) (r : RowResult)
    (hr : resultsGet results i = some r)
    (hs : r.status = none ∨ r.status = some "") :
    getRowStatus results marker i = "completed" := by
  unfold getRowStatus
  rw [hr]
  rcases hs with h | h <;> simp [h]

/-- C9 witness: a result entry with an absent status field renders as
`completed` even for the row the processing marker points at. -/
theorem c9_witness :
    getRowStatus [(3, { status := none, enrichments := [] })] 3 3
      = "completed" :=
  c9_result_presence_is_completed _ 3 3 { status := none, enrichments := [] }
    (by decide) (Or.inl rfl)

/-- C10: the confidence badge is rendered iff the confidence is present
and non-zero (`confidence && …` is falsy at exactly 0 and absence), and
a non-zero confidence `c` renders `Math.round(c * 100)`. -/
theorem c10_confidence_badge (confidence : Option ℚ) :
    ((confidenceBadge confidence = none) ↔
      (confidence = none ∨ confidence = some 0))
    ∧ (∀ c : ℚ, confidence = some c → c ≠ 0 →
        confidenceBadge confidence = some (jsRound (c * 100))) := by
  constructor
  · cases confidence with
    | none => simp [confidenceBadge]
    | some c =>
      by_cases hc : c = 0 <;> simp [confidenceBadge, hc]
  · intro c hc hzero
    subst hc
    simp [confidenceBadge, hzero]

theorem addAlert_nodup (alerts : List String) (msg : String)
    (h : alerts.Nodup) : (addAlert alerts msg).Nodup := by
  unfold addAlert
  split_ifs with hm
  · exact h
  · simp [List.nodup_append, h, hm]

theorem hookStep_alerts_nodup (t : PerformanceThresholds) (s : HookState)
    (op : HookOp) (h : s.alerts.Nodup) : (hookStep t s op).alerts.Nodup := by
  cases op <;>
    simp only [hookStep, measureMemoryUsage, measureFrameRate,
      measureRenderTime, updateProcessingMetrics, trackNetworkRequest,
      resetMetrics, clearAlert, clearAllAlerts] <;>
    (try split_ifs) <;>
    first
      | exact h
      | exact addAlert_nodup _ _ h
      | exact addAlert_nodup _ _ (addAlert_nodup _ _ h)
      | exact h.filter _
      | exact List.nodup_nil

theorem foldl_hookStep_nodup (t : PerformanceThresholds) :
    ∀ (ops : List HookOp) (s : HookState), s.alerts.Nodup →
      (ops.foldl (hookStep t) s).alerts.Nodup
  | [], _, h => h
  | op :: ops, s, h =>
    foldl_hookStep_nodup t ops (hookStep t s op)
      (hookStep_alerts_nodup t s op h)

/-- C6: the alert set never holds two identical strings — every recording
sequence ends in a duplicate-free alert list, appending an already-present
message is a no-op, and two memory samples both reading 600MB against the
default 500MB threshold leave exactly the one alert string. -/
theorem c6_alert_dedup :
    (∀ (t : PerformanceThresholds) (t0 : ℚ) (ops : List HookOp),
      (runHook t t0 ops).alerts.Nodup)
    ∧ (∀ (alerts : List String) (msg : String), msg ∈ alerts →
        addAlert alerts msg = alerts)
    ∧ (runHook DEFAULT_THRESHOLDS 0
        [.memorySample 629145600 1, .memorySample 629145600 2]).alerts
        = ["High memory usage: 600MB (threshold: 500MB)"] := by
  refine ⟨fun t t0 ops => foldl_hookStep_nodup t ops (initialState t0)
      List.nodup_nil,
    fun alerts msg hm => by simp [addAlert, hm], ?_⟩
  have hmb : ((629145600 : ℚ) / 1024 / 1024) = 600 := by norm_num
  have hr : jsRound (600 : ℚ) = 600 := by norm_num [jsRound, Int.floor_eq_iff]
  simp only [runHook, List.foldl, hookStep, measureMemoryUsage, hmb, hr,
    initialState, initialMetrics, DEFAULT_THRESHOLDS, addAlert]
  norm_num
  decide

/-- C6 witness: appending an alert string that is already the sole member
of the alert set leaves the set unchanged. -/
theorem c6_witness : addAlert ["alert"] "alert" = ["alert"] :=
  c6_alert_dedup.2.1 ["alert"] "alert" (by decide)

/-- The two-row dataset exercising the auto-scroll divergence. -/
def twoEmailRows : List CSVRow := [[("email", "a")], [("email", "b")]]

/-- C1: with a descending email sort active, the row the processing
marker points at (rowIndex 0) is displayed at sorted position 1, yet the
effect passes the raw marker to `scrollToItem`, so the list is centered
on position 0 — the position of a different row.  This refutes the
claimed (and intended) centering on the row's position in the current
sorted order. -/
theorem c1_autoscroll_divergence :
    autoScrollTarget 0 = some 0
    ∧ (sortedData twoEmailRows [] (some ⟨"email", .desc⟩)
        (some "email")).map Prod.fst = [1, 0] := by
  decide

theorem charsLt_nil_left {l : List Char} (h : charsLt [] l = false) :
    l = [] := by
  cases l with
  | nil => rfl
  | cons c cs => simp [charsLt] at h

theorem charsLt_negtrans {a b c : List Char} (h1 : charsLt b a = false)
    (h2 : charsLt c b = false) : charsLt c a = false := by
  by_contra hne
  have hca : charsLt c a = true := by
    cases hv : charsLt c a with
    | false => exact absurd hv hne
    | true => rfl
  rcases charsLt_connex h1 with hab | hab
  · exact absurd (charsLt_trans hca hab) (by simp [h2])
  · rw [← hab] at hca
    exact absurd hca (by simp [h2])

/-- Truthy-string test used to state that every present value of the sort
field is a non-empty string. -/
def isNonemptyStr : JSVal → Bool
  | .str s => !s.data.isEmpty
  | _ => false

/-- The string content of a row's field key in the all-strings setting:
its present string value, or the empty string when absent. -/
def fieldStr (results : ResultStore) (k : String) (e : RowEntry) : String :=
  match enrichedValue results k e with
  | some (.str s) => s
  | _ => ""

theorem sortKey_str {results : ResultStore} {ec : Option String}
    {k : String} (hk : k ≠ "email") {e : RowEntry}
    (hall : Option.all isNonemptyStr (enrichedValue results k e) = true) :
    sortKey results ec ⟨k, .asc⟩ e = .str (fieldStr results k e) := by
  unfold sortKey
  simp only [if_neg hk]
  cases hv : enrichedValue results k e with
  | none => simp [orEmpty, fieldStr, hv]
  | some v =>
    rw [hv] at hall
    simp only [Option.all] at hall
    cases v <;> simp [isNonemptyStr] at hall
    case str s =>
      have hs : s ≠ "" := by
        intro hemp
        subst hemp
        simp at hall
      simp [orEmpty, truthy, fieldStr, hv, hs]

theorem rowLtB_eq_fieldLt {results : ResultStore} {ec : Option String}
    {k : String} (hk : k ≠ "email") {a b : RowEntry}
    (ha : Option.all isNonemptyStr (enrichedValue results k a) = true)
    (hb : Option.all isNonemptyStr (enrichedValue results k b) = true) :
    rowLtB results ec ⟨k, .asc⟩ a b
      = charsLt (fieldStr results k a).data (fieldStr results k b).data := by
  simp only [rowLtB, sortKey_str hk ha, sortKey_str hk hb]
  rfl

/-- C2 (amended): absent enrichment values are compared with the
empty-string key; when every present value of the sort field is a
non-empty string, ascending sort places every absent row before every
present row; rows with equal keys (which include falsy present values)
appear in ascending original `rowIndex` order; and the §8.7 three-row
dataset sorted ascending by score yields row 0, row 2, row 1.  (As
stated the claim put every absent row before every present row in all
datasets, which fails for falsy present values — see the
counterexample.) -/
theorem c2_sort_absent_lowest :
    (∀ (rows : List CSVRow) (results : ResultStore) (ec : Option String)
        (k : String), k ≠ "email" →
      (∀ e ∈ rows.enum,
        Option.all isNonemptyStr (enrichedValue results k e) = true) →
      (sortedData rows results (some ⟨k, .asc⟩) ec).Pairwise
        (fun a b => enrichedValue results k b = none →
          enrichedValue results k a = none))
    ∧ (∀ (rows : List CSVRow) (results : ResultStore) (ec : Option String)
        (cfg : SortConfig) (K : JSVal),
      (((sortedData rows results (some cfg) ec).filter
          (fun e => decide (sortKey results ec cfg e = K))).map
        Prod.fst).Pairwise (· < ·))
    ∧ (sortedData specRows specResults (some ⟨"score", .asc⟩)
        (some "email")).map Prod.fst = [0, 2, 1] := by
  refine ⟨fun rows results ec k hk hall => ?_,
    fun rows results ec cfg K => sortedData_ties_pairwise rows results ec cfg K,
    by decide⟩
  have hcongr : sortedData rows results (some ⟨k, .asc⟩) ec
      = stableSort (fun a b => charsLt (fieldStr results k a).data
          (fieldStr results k b).data) rows.enum := by
    unfold sortedData
    exact stableSort_congr rows.enum
      (fun a ha b hb => rowLtB_eq_fieldLt hk (hall a ha) (hall b hb))
  rw [hcongr]
  have hchain := @chain'_stableSort RowEntry
    (fun a b : RowEntry => charsLt (fieldStr results k a).data
      (fieldStr results k b).data)
    (fun a b hab => charsLt_asymm hab) rows.enum
  have hpw := (@List.chain'_iff_pairwise RowEntry
    (fun a b => charsLt (fieldStr results k b).data
      (fieldStr results k a).data = false)
    ⟨fun a b c h1 h2 => charsLt_negtrans h1 h2⟩ _).1 hchain
  refine pairwise_imp_mem (fun a ha b hb hR habs => ?_) hpw
  have hamem : a ∈ rows.enum := (mem_stableSort _ _ _).1 ha
  have hbnil : (fieldStr results k b).data = [] := by
    simp [fieldStr, habs]
  rw [hbnil] at hR
  have hanil : (fieldStr results k a).data = [] := charsLt_nil_left hR
  have := hall a hamem
  cases hv : enrichedValue results k a with
  | none => rfl
  | some v =>
    rw [hv] at this
    simp only [Option.all] at this
    cases v <;> simp [isNonemptyStr] at this
    case str s =>
      simp only [fieldStr, hv] at hanil
      simp [hanil] at this

/-- C2, counterexample to the claim as stated: row 0 carries the present
(falsy) score 0 and row 1 has no enrichment, yet ascending sort by score
leaves present row 0 before absent row 1, because `0 || ''` collapses the
present value to the absent rows' empty-string key. -/
theorem c2_counterexample :
    (sortedData twoEmailRows zeroScoreStore (some ⟨"score", .asc⟩)
      none).map Prod.fst = [0, 1]
    ∧ enrichedValue zeroScoreStore "score" (0, [("email", "a")])
        = some (.num 0)
    ∧ enrichedValue zeroScoreStore "score" (1, [("email", "b")]) = none := by
  decide

/-- Rows for the C2/C3 witnesses: three rows, one string enrichment. -/
def strRows : List CSVRow := [[("email", "a")], [("email", "b")], [("email", "c")]]

/-- Result store for the C2/C3 witnesses: row 0 has the non-empty string
value `"zeta"` for field `name`; rows 1 and 2 are absent (duplicate
empty-string sort keys). -/
def strResults : ResultStore :=
  [(0, { status := some "completed",
         enrichments :=
           [("name", { value := some (.str "zeta"), confidence := none })] })]

/-- C2 witness: on the all-strings dataset the sorted output puts the two
absent rows before the present row, pairwise. -/
theorem c2_witness :
    (sortedData strRows strResults (some ⟨"name", .asc⟩) none).Pairwise
      (fun a b => enrichedValue strResults "name" b = none →
        enrichedValue strResults "name" a = none) :=
  c2_sort_absent_lowest.1 strRows strResults none "name" (by decide) (by decide)

/-- C3: applying the active sort again to the already-sorted row order
returns it unchanged, and rows with equal sort keys appear in ascending
original `rowIndex` order, for every dataset containing duplicate
sort-key values and every sort configuration. -/
theorem c3_sort_idempotent_stable :
    (∀ (rows : List CSVRow) (results : ResultStore) (ec : Option String)
        (cfg : SortConfig),
      (∃ e1 ∈ rows.enum, ∃ e2 ∈ rows.enum, e1.1 ≠ e2.1 ∧
        sortKey results ec cfg e1 = sortKey results ec cfg e2) →
      stableSort (rowLtB results ec cfg)
        (sortedData rows results (some cfg) ec)
        = sortedData rows results (some cfg) ec)
    ∧ (∀ (rows : List CSVRow) (results : ResultStore) (ec : Option String)
        (cfg : SortConfig),
      (∃ e1 ∈ rows.enum, ∃ e2 ∈ rows.enum, e1.1 ≠ e2.1 ∧
        sortKey results ec cfg e1 = sortKey results ec cfg e2) →
      ∀ K : JSVal,
      (((sortedData rows results (some cfg) ec).filter
          (fun e => decide (sortKey results ec cfg e = K))).map
        Prod.fst).Pairwise (· < ·)) :=
  ⟨fun rows results ec cfg _ =>
    stableSort_idem (rowLtB_asymm results ec cfg) rows.enum,
   fun rows results ec cfg _ K =>
    sortedData_ties_pairwise rows results ec cfg K⟩

/-- C3 witness: the witness dataset has two rows tied on the empty-string
key; re-sorting its sorted order is a no-op and the tied rows stay in
`rowIndex` order. -/
theorem c3_witness :
    stableSort (rowLtB strResults none ⟨"name", .asc⟩)
      (sortedData strRows strResults (some ⟨"name", .asc⟩) none)
      = sortedData strRows strResults (some ⟨"name", .asc⟩) none
    ∧ (((sortedData strRows strResults (some ⟨"name", .asc⟩) none).filter
        (fun e => decide (sortKey strResults none ⟨"name", .asc⟩ e
          = .str ""))).map Prod.fst).Pairwise (· < ·) :=
  ⟨c3_sort_idempotent_stable.1 strRows strResults none ⟨"name", .asc⟩
      (by decide),
   c3_sort_idempotent_stable.2 strRows strResults none ⟨"name", .asc⟩
      (by decide) (.str "")⟩

/-- C10 witness: confidence 0.9 renders a 90% badge, confidence exactly 0
renders none. -/
theorem c10_witness :
    confidenceBadge (some (9/10)) = some 90
    ∧ confidenceBadge (some 0) = none := by
  have h90 : jsRound ((9 : ℚ) / 10 * 100) = 90 := by
    norm_num [jsRound, Int.floor_eq_iff]
  refine ⟨?_, (c10_confidence_badge (some 0)).1.mpr (Or.inr rfl)⟩
  rw [(c10_confidence_badge (some (9/10))).2 (9/10) rfl (by norm_num), h90]

end FireEnrich
